import Mathlib

/-!
Shallow embedding of the state-graph compiler of the stepfunctions package
(chains of Task/Choice/Wait/Parallel/Map/Pass/Succeed/Fail states compiled
into an Amazon States Language document plus aggregated permission
statements), together with the event-rule-target logic of
`lib/state-machine.ts`.

The graph traversal/validation/serialization code (state-graph.ts and the
per-state classes) is not present in the source tree; only its caller
`state-machine.ts` is.  Those parts are modelled from the spec, as marked
on each definition; `asEventRuleTarget` and the `StateMachine` wiring are
embedded from `lib/state-machine.ts` directly.
-/

set_option maxHeartbeats 1000000

namespace StepFn

/-- A permission statement record: effect, actions, resources
(spec section 6, Output #2). -/
structure PolicyStatement where
  effect : String
  actions : List String
  resources : List String
deriving Repr, DecidableEq

/-- A retry policy entry attached to a state (spec section 3). -/
structure Retrier where
  errors : List String
  intervalSeconds : Nat
  backoffRate : Nat
  maxAttempts : Nat
deriving Repr, DecidableEq

/-- A catch handler: error patterns and a target state name (spec section 3). -/
structure Catcher where
  errors : List String
  nextName : String
deriving Repr, DecidableEq

/-- One conditional transition of a Choice state: a condition (kept
abstract as its rendered form) and the target state name. -/
structure ChoiceBranch where
  condition : String
  nextName : String
deriving Repr, DecidableEq

/-- The four mutually exclusive duration specifiers of a Wait state
(spec section 4.4): duration seconds, absolute timestamp, seconds-path,
timestamp-path. -/
structure WaitSpec where
  seconds : Option Nat
  timestamp : Option String
  secondsPath : Option String
  timestampPath : Option String
deriving Repr, DecidableEq

/-- How many of the four Wait duration specifiers are set. -/
def WaitSpec.count (w : WaitSpec) : Nat :=
  (if w.seconds.isSome then 1 else 0) + (if w.timestamp.isSome then 1 else 0) +
  (if w.secondsPath.isSome then 1 else 0) + (if w.timestampPath.isSome then 1 else 0)

/-- The structural compilation errors of the spec error taxonomy
(spec section 7). -/
inductive CompileError : Type where
  | duplicateStateName (name path1 path2 : String)
  | unresolvedTransition (target : String)
  | invalidWaitSpecification (name : String)
  | doubleWiring (name : String)
deriving Repr, DecidableEq

mutual

/-- Modelled from the spec: the state node model of state-graph.ts and the
per-state classes (not under src/).  A closed tagged variant per state kind
(spec sections 3 and 9); every constructor carries the display name and the
construction path first.  Transition targets are state names; Parallel and
Map carry owned sub-graphs. -/
inductive StateDef : Type where
  | task (name path : String) (resource : String)
      (statements : List PolicyStatement) (retriers : List Retrier)
      (catchers : List Catcher) (next : Option String) (isEnd : Bool)
  | pass (name path : String) (next : Option String) (isEnd : Bool)
  | wait (name path : String) (spec : WaitSpec) (next : Option String) (isEnd : Bool)
  | choice (name path : String) (branches : List ChoiceBranch)
      (defaultTarget : Option String)
  | succeed (name path : String)
  | fail (name path : String) (errorName cause : String)
  | parallel (name path : String) (branches : List Branch)
      (catchers : List Catcher) (next : Option String) (isEnd : Bool)
  | mapState (name path : String) (iterator : Branch)
      (catchers : List Catcher) (next : Option String) (isEnd : Bool)

/-- Modelled from the spec: an owned sub-graph of a Parallel branch or a Map
iterator: a start state plus the other states of that sub-graph. -/
inductive Branch : Type where
  | mk (start : StateDef) (others : List StateDef)

end

/-- Display name of a state. -/
def StateDef.name : StateDef → String
  | .task n _ _ _ _ _ _ _ => n
  | .pass n _ _ _ => n
  | .wait n _ _ _ _ => n
  | .choice n _ _ _ => n
  | .succeed n _ => n
  | .fail n _ _ _ => n
  | .parallel n _ _ _ _ _ => n
  | .mapState n _ _ _ _ _ => n

/-- Construction path of a state (used in diagnostics). -/
def StateDef.path : StateDef → String
  | .task _ p _ _ _ _ _ _ => p
  | .pass _ p _ _ => p
  | .wait _ p _ _ _ => p
  | .choice _ p _ _ => p
  | .succeed _ p => p
  | .fail _ p _ _ => p
  | .parallel _ p _ _ _ _ => p
  | .mapState _ p _ _ _ _ => p

mutual

/-- Modelled from the spec: the flattened namespace entries (display name,
construction path) contributed by one state, including every state inside
nested Parallel branches and Map iterators (spec section 4.3 step 3). -/
def flatEntriesState : StateDef → List (String × String)
  | .task n p _ _ _ _ _ _ => [(n, p)]
  | .pass n p _ _ => [(n, p)]
  | .wait n p _ _ _ => [(n, p)]
  | .choice n p _ _ => [(n, p)]
  | .succeed n p => [(n, p)]
  | .fail n p _ _ => [(n, p)]
  | .parallel n p brs _ _ _ => (n, p) :: flatEntriesBranches brs
  | .mapState n p it _ _ _ => (n, p) :: flatEntriesBranch it

/-- Flattened namespace entries of a list of states. -/
def flatEntriesList : List StateDef → List (String × String)
  | [] => []
  | s :: rest => flatEntriesState s ++ flatEntriesList rest

/-- Flattened namespace entries of one sub-graph. -/
def flatEntriesBranch : Branch → List (String × String)
  | .mk st os => flatEntriesState st ++ flatEntriesList os

/-- Flattened namespace entries of a list of sub-graphs. -/
def flatEntriesBranches : List Branch → List (String × String)
  | [] => []
  | b :: bs => flatEntriesBranch b ++ flatEntriesBranches bs

end

/-- The flattened list of display names of a list of states. -/
def flatNames (l : List StateDef) : List String :=
  (flatEntriesList l).map Prod.fst

/-- Modelled from the spec: the duplicate-name scan of the graph traversal
(state-graph.ts, not under src/): walk the flattened entries keeping the
already-registered ones; on the first name met twice, report the name and
both construction paths (spec section 4.3 step 2). -/
def findDupGo : List (String × String) → List (String × String) →
    Option (String × String × String)
  | _, [] => none
  | seen, (n, p) :: rest =>
    match seen.find? (fun e => e.1 = n) with
    | some e0 => some (n, e0.2, p)
    | none => findDupGo ((n, p) :: seen) rest

/-- Duplicate-name scan started with an empty registry. -/
def findDup (l : List (String × String)) : Option (String × String × String) :=
  findDupGo [] l

/-- Modelled from the spec: the transition targets a state refers to at its
own nesting level: Next, each Catch target, each Choice branch target and
the Choice default (spec section 4.3 step 3; branch-internal states belong
to the nested namespace and are not local targets). -/
def stateTargets : StateDef → List String
  | .task _ _ _ _ _ cs nxt _ => nxt.toList ++ cs.map Catcher.nextName
  | .pass _ _ nxt _ => nxt.toList
  | .wait _ _ _ nxt _ => nxt.toList
  | .choice _ _ brs dflt => brs.map ChoiceBranch.nextName ++ dflt.toList
  | .succeed _ _ => []
  | .fail _ _ _ _ => []
  | .parallel _ _ _ cs nxt _ => nxt.toList ++ cs.map Catcher.nextName
  | .mapState _ _ _ cs nxt _ => nxt.toList ++ cs.map Catcher.nextName

mutual

/-- Modelled from the spec: find a Wait state whose number of set duration
specifiers differs from one, anywhere in the flattened set
(spec sections 4.4 and 7, InvalidWaitSpecification). -/
def findBadWaitState : StateDef → Option String
  | .wait n _ w _ _ => if w.count ≠ 1 then some n else none
  | .parallel _ _ brs _ _ _ => findBadWaitBranches brs
  | .mapState _ _ it _ _ _ => findBadWaitBranch it
  | _ => none

/-- First bad Wait state in a list of states. -/
def findBadWaitList : List StateDef → Option String
  | [] => none
  | s :: rest =>
    match findBadWaitState s with
    | some n => some n
    | none => findBadWaitList rest

/-- First bad Wait state inside one sub-graph. -/
def findBadWaitBranch : Branch → Option String
  | .mk st os =>
    match findBadWaitState st with
    | some n => some n
    | none => findBadWaitList os

/-- First bad Wait state in a list of sub-graphs. -/
def findBadWaitBranches : List Branch → Option String
  | [] => none
  | b :: bs =>
    match findBadWaitBranch b with
    | some n => some n
    | none => findBadWaitBranches bs

end

mutual

/-- Modelled from the spec: the flattened reachable state set contributed
by one state, including every state inside nested Parallel branches and Map
iterators (spec section 4.3). -/
def flatStatesState : StateDef → List StateDef
  | .parallel n p brs cs nxt e => .parallel n p brs cs nxt e :: flatStatesBranches brs
  | .mapState n p it cs nxt e => .mapState n p it cs nxt e :: flatStatesBranch it
  | s => [s]

/-- Flattened state set of a list of states. -/
def flatStatesList : List StateDef → List StateDef
  | [] => []
  | s :: rest => flatStatesState s ++ flatStatesList rest

/-- Flattened state set of one sub-graph. -/
def flatStatesBranch : Branch → List StateDef
  | .mk st os => flatStatesState st ++ flatStatesList os

/-- Flattened state set of a list of sub-graphs. -/
def flatStatesBranches : List Branch → List StateDef
  | [] => []
  | b :: bs => flatStatesBranch b ++ flatStatesBranches bs

end

/-- Whether a state is a Wait whose number of set duration specifiers
differs from one. -/
def isBadWait : StateDef → Bool
  | .wait _ _ w _ _ => w.count ≠ 1
  | _ => false

/-- The display names of the states of one nesting level: the local keys of
the document about to be produced for that level. -/
def levelKeys (start : StateDef) (others : List StateDef) : List String :=
  (start :: others).map StateDef.name

/-- First target of the given list that is not among the keys. -/
def findDangling (keys : List String) : List String → Option String
  | [] => none
  | t :: ts => if t ∈ keys then findDangling keys ts else some t

mutual

/-- Modelled from the spec: find a transition target that does not resolve,
checking each state against the keys of its own nesting level and recursing
into Parallel branches and Map iterators with their own keys
(spec section 4.3 step 5 and section 7, UnresolvedTransition). -/
def findUnresolvedState (keys : List String) : StateDef → Option String
  | .parallel n p brs cs nxt e =>
    match findDangling keys (stateTargets (.parallel n p brs cs nxt e)) with
    | some t => some t
    | none => findUnresolvedBranches brs
  | .mapState n p it cs nxt e =>
    match findDangling keys (stateTargets (.mapState n p it cs nxt e)) with
    | some t => some t
    | none => findUnresolvedBranch it
  | s => findDangling keys (stateTargets s)

/-- First unresolved target over a list of states of one level. -/
def findUnresolvedList (keys : List String) : List StateDef → Option String
  | [] => none
  | s :: rest =>
    match findUnresolvedState keys s with
    | some t => some t
    | none => findUnresolvedList keys rest

/-- First unresolved target inside one sub-graph, resolved against the
keys of that sub-graph. -/
def findUnresolvedBranch : Branch → Option String
  | .mk st os =>
    match findUnresolvedState (levelKeys st os) st with
    | some t => some t
    | none => findUnresolvedList (levelKeys st os) os

/-- First unresolved target in a list of sub-graphs. -/
def findUnresolvedBranches : List Branch → Option String
  | [] => none
  | b :: bs =>
    match findUnresolvedBranch b with
    | some t => some t
    | none => findUnresolvedBranches bs

end

mutual

/-- Modelled from the spec: the kind-specific JSON fragment of one state
merged with its transition fields (spec section 4.4): Type, Resource,
Next or End, Retry and Catch arrays in declaration order, Choices and
Default, the four Wait duration fields, nested Branches and Iterator
documents, Error and Cause. -/
inductive Fragment : Type where
  | mk (type : String) (resource : Option String)
      (next : Option String) (stateEnd : Option Bool)
      (retriers : List Retrier) (catchers : List Catcher)
      (choices : List ChoiceBranch) (defaultTarget : Option String)
      (seconds : Option Nat) (timestamp : Option String)
      (secondsPath : Option String) (timestampPath : Option String)
      (branches : List Document) (iterator : Option Document)
      (errorName : Option String) (cause : Option String)

/-- Modelled from the spec: a compiled Amazon States Language document:
StartAt, the States mapping in discovery order, and the optional
TimeoutSeconds (spec section 4.4). -/
inductive Document : Type where
  | mk (startAt : String) (states : List (String × Fragment))
      (timeoutSeconds : Option Nat)

end

/-- StartAt field of a document. -/
def Document.startAt : Document → String
  | .mk sa _ _ => sa

/-- States mapping of a document. -/
def Document.states : Document → List (String × Fragment)
  | .mk _ sts _ => sts

/-- TimeoutSeconds field of a document. -/
def Document.timeoutSeconds : Document → Option Nat
  | .mk _ _ t => t

/-- Type field of a fragment. -/
def Fragment.type : Fragment → String
  | .mk ty _ _ _ _ _ _ _ _ _ _ _ _ _ _ _ => ty

/-- Transition targets appearing in one fragment: Next, Catch targets,
Choice branch targets and Default. -/
def Fragment.targets : Fragment → List String
  | .mk _ _ nxt _ _ cs chs dflt _ _ _ _ _ _ _ _ =>
    nxt.toList ++ cs.map Catcher.nextName ++ chs.map ChoiceBranch.nextName ++ dflt.toList

/-- Wait duration fields of a fragment, as a WaitSpec. -/
def Fragment.waitFields : Fragment → WaitSpec
  | .mk _ _ _ _ _ _ _ _ sec ts sp tp _ _ _ _ =>
    { seconds := sec, timestamp := ts, secondsPath := sp, timestampPath := tp }

/-- Nested documents of a fragment: Parallel branches and the Map iterator. -/
def Fragment.nestedDocs : Fragment → List Document
  | .mk _ _ _ _ _ _ _ _ _ _ _ _ brs it _ _ => brs ++ it.toList

/-- A fragment with every optional field unset. -/
def Fragment.base (ty : String) : Fragment :=
  .mk ty none none none [] [] [] none none none none none [] none none none

mutual

/-- Modelled from the spec: render one state into its fragment
(spec section 4.4); End is emitted only when the end marker is set, and
Parallel branches and the Map iterator are rendered as nested documents by
recursion. -/
def renderState : StateDef → Fragment
  | .task _ _ res _ rts cs nxt e =>
    .mk "Task" (some res) nxt (if e then some true else none) rts cs [] none
      none none none none [] none none none
  | .pass _ _ nxt e =>
    .mk "Pass" none nxt (if e then some true else none) [] [] [] none
      none none none none [] none none none
  | .wait _ _ w nxt e =>
    .mk "Wait" none nxt (if e then some true else none) [] [] [] none
      w.seconds w.timestamp w.secondsPath w.timestampPath [] none none none
  | .choice _ _ brs dflt =>
    .mk "Choice" none none none [] [] brs dflt
      none none none none [] none none none
  | .succeed _ _ =>
    .mk "Succeed" none none none [] [] [] none
      none none none none [] none none none
  | .fail _ _ err cs =>
    .mk "Fail" none none none [] [] [] none
      none none none none [] none (some err) (some cs)
  | .parallel _ _ brs cs nxt e =>
    .mk "Parallel" none nxt (if e then some true else none) [] cs [] none
      none none none none (renderBranches brs) none none none
  | .mapState _ _ it cs nxt e =>
    .mk "Map" none nxt (if e then some true else none) [] cs [] none
      none none none none [] (some (renderBranch it)) none none

/-- Render the named fragments of the states of one level. -/
def renderList : List StateDef → List (String × Fragment)
  | [] => []
  | s :: rest => (s.name, renderState s) :: renderList rest

/-- Render a sub-graph into its own self-contained document: StartAt is
the sub-graph start name, and nested documents carry no TimeoutSeconds. -/
def renderBranch : Branch → Document
  | .mk st os => .mk st.name ((st.name, renderState st) :: renderList os) none

/-- Render a list of sub-graphs. -/
def renderBranches : List Branch → List Document
  | [] => []
  | b :: bs => renderBranch b :: renderBranches bs

end

mutual

/-- Modelled from the spec: the permission statements contributed by one
state in traversal order; Task states with a backing resource contribute
their statements, Parallel and Map recurse into their sub-graphs
(spec section 4.5). -/
def statementsState : StateDef → List PolicyStatement
  | .task _ _ _ stm _ _ _ _ => stm
  | .parallel _ _ brs _ _ _ => statementsBranches brs
  | .mapState _ _ it _ _ _ => statementsBranch it
  | _ => []

/-- Permission statements of a list of states, in traversal order. -/
def statementsList : List StateDef → List PolicyStatement
  | [] => []
  | s :: rest => statementsState s ++ statementsList rest

/-- Permission statements of one sub-graph. -/
def statementsBranch : Branch → List PolicyStatement
  | .mk st os => statementsState st ++ statementsList os

/-- Permission statements of a list of sub-graphs. -/
def statementsBranches : List Branch → List PolicyStatement
  | [] => []
  | b :: bs => statementsBranch b ++ statementsBranches bs

end

/-- Modelled from the spec: fold the traversal-ordered statements into the
accumulated result, appending a statement only when no exactly equal one is
already present (spec section 4.5). -/
def mergeInto (acc : List PolicyStatement) : List PolicyStatement → List PolicyStatement
  | [] => acc
  | s :: rest => if s ∈ acc then mergeInto acc rest else mergeInto (acc ++ [s]) rest

/-- Modelled from the spec: merge permission statements by exact
(actions, resource, effect) equality, keeping the first occurrence of each
distinct statement in first-seen order (spec section 4.5). -/
def mergeStatements (l : List PolicyStatement) : List PolicyStatement :=
  mergeInto [] l

/-- Modelled from the spec: the first-seen-order merge the spec words
prescribe for the aggregator (spec section 4.5): keep each distinct
statement at its first traversal occurrence and drop every later exact
duplicate.  Stated independently of the accumulator implementation
mergeInto, so that the implementation can be proved to produce exactly this
list. -/
def dedupFirstSeen : List PolicyStatement → List PolicyStatement
  | [] => []
  | s :: rest => s :: dedupFirstSeen (rest.filter (fun t => t ≠ s))
termination_by l => l.length
decreasing_by
  simp only [List.length_cons]
  exact Nat.lt_succ_of_le (List.length_filter_le _ _)

/-- Modelled from the spec: a whole graph: the start state, the remaining
discovered states, and the optional execution timeout
(spec section 3, Graph). -/
structure StateGraph where
  start : StateDef
  others : List StateDef
  timeoutSeconds : Option Nat

/-- All states of the top level of a graph. -/
def StateGraph.states (g : StateGraph) : List StateDef :=
  g.start :: g.others

/-- The output of a successful compilation: the complete document and the
merged permission-statement list. -/
structure CompileOutput where
  doc : Document
  statements : List PolicyStatement

/-- Modelled from the spec: compile a graph (state-graph.ts, not under
src/): detect duplicate names over the flattened namespace, then invalid
Wait specifications, then unresolved transition targets; only if all checks
pass, produce the complete document and the merged statement list
(spec sections 4.3, 4.4, 4.5 and 7). -/
def compile (g : StateGraph) : Except CompileError CompileOutput :=
  match findDup (flatEntriesList g.states) with
  | some (n, p1, p2) => .error (.duplicateStateName n p1 p2)
  | none =>
    match findBadWaitList g.states with
    | some n => .error (.invalidWaitSpecification n)
    | none =>
      match findUnresolvedList (levelKeys g.start g.others) g.states with
      | some t => .error (.unresolvedTransition t)
      | none =>
        .ok { doc := .mk g.start.name (renderList g.states) g.timeoutSeconds,
              statements := mergeStatements (statementsList g.states) }

/-- A chain value: the start state name and the names of the current open
ends (spec section 4.2). -/
structure Chain where
  startName : String
  openEnds : List String

/-- Whether a state is still open: its outgoing transition is unset
(no Next and no End; for Choice, no default; Succeed and Fail are never
open). -/
def StateDef.isOpen : StateDef → Bool
  | .task _ _ _ _ _ _ nxt e => nxt.isNone && !e
  | .pass _ _ nxt e => nxt.isNone && !e
  | .wait _ _ _ nxt e => nxt.isNone && !e
  | .choice _ _ _ dflt => dflt.isNone
  | .succeed _ _ => false
  | .fail _ _ _ _ => false
  | .parallel _ _ _ _ nxt e => nxt.isNone && !e
  | .mapState _ _ _ _ nxt e => nxt.isNone && !e

/-- The state with its outgoing transition set to the given target: Next
for ordinary states, the default transition for Choice. -/
def StateDef.withTarget (t : String) : StateDef → StateDef
  | .task n p r stm rts cs _ e => .task n p r stm rts cs (some t) e
  | .pass n p _ e => .pass n p (some t) e
  | .wait n p w _ e => .wait n p w (some t) e
  | .choice n p brs _ => .choice n p brs (some t)
  | .succeed n p => .succeed n p
  | .fail n p err c => .fail n p err c
  | .parallel n p brs cs _ e => .parallel n p brs cs (some t) e
  | .mapState n p it cs _ e => .mapState n p it cs (some t) e

/-- Modelled from the spec: set the transition of one open end to the
target name, failing with DoubleWiring when the state already has Next or
End set (or is Succeed/Fail, which never accept a transition)
(spec sections 4.2 and 7). -/
def setTarget (t : String) (s : StateDef) : Except CompileError StateDef :=
  if s.isOpen then .ok (s.withTarget t) else .error (.doubleWiring s.name)

/-- Modelled from the spec: wire every state of the pool whose name is an
open end of the chain to the target name, leaving the other states
untouched. -/
def wireStates (ends : List String) (t : String) :
    List StateDef → Except CompileError (List StateDef)
  | [] => .ok []
  | s :: rest =>
    if s.name ∈ ends then
      match setTarget t s with
      | .error e => .error e
      | .ok s2 =>
        match wireStates ends t rest with
        | .error e => .error e
        | .ok rest2 => .ok (s2 :: rest2)
    else
      match wireStates ends t rest with
      | .error e => .error e
      | .ok rest2 => .ok (s :: rest2)

/-- Modelled from the spec: the chain-linking operation next(chain, target)
over a pool of states: wires every open end of the chain to the start of
the target and yields the updated pool together with the chain whose start
is the first chain start and whose open ends are the target open ends
(spec section 4.2). -/
def nextOp (pool : List StateDef) (c t : Chain) :
    Except CompileError (List StateDef × Chain) :=
  match wireStates c.openEnds t.startName pool with
  | .error e => .error e
  | .ok pool2 => .ok (pool2, { startName := c.startName, openEnds := t.openEnds })

mutual

/-- Whether every transition target of a fragment is among the given keys
of its own nesting level, and the same holds recursively inside its nested
documents. -/
def fragResolved (keys : List String) : Fragment → Bool
  | .mk _ _ nxt _ _ cs chs dflt _ _ _ _ brs it _ _ =>
    ((nxt.toList ++ cs.map Catcher.nextName ++ chs.map ChoiceBranch.nextName
        ++ dflt.toList).all (fun t => decide (t ∈ keys)))
    && docsResolved brs
    && (match it with | none => true | some d => docResolved d)

/-- Resolution check over the named fragments of one level. -/
def fragsResolved (keys : List String) : List (String × Fragment) → Bool
  | [] => true
  | (_, fr) :: rest => fragResolved keys fr && fragsResolved keys rest

/-- Whether every transition target appearing anywhere in a document is a
key of the States mapping of its own nesting level. -/
def docResolved : Document → Bool
  | .mk _ sts _ => fragsResolved (sts.map Prod.fst) sts

/-- Resolution check over a list of documents. -/
def docsResolved : List Document → Bool
  | [] => true
  | d :: ds => docResolved d && docsResolved ds

end

mutual

/-- Whether every Wait fragment of a document carries exactly one of the
four duration fields, recursively through nested documents. -/
def fragWaitOk : Fragment → Bool
  | .mk ty _ _ _ _ _ _ _ sec ts sp tp brs it _ _ =>
    (if ty = "Wait" then (WaitSpec.mk sec ts sp tp).count == 1 else true)
    && docsWaitOk brs
    && (match it with | none => true | some d => docWaitOk d)

/-- Wait-field check over the named fragments of one level. -/
def fragsWaitOk : List (String × Fragment) → Bool
  | [] => true
  | (_, fr) :: rest => fragWaitOk fr && fragsWaitOk rest

/-- Wait-field check over a whole document. -/
def docWaitOk : Document → Bool
  | .mk _ sts _ => fragsWaitOk sts

/-- Wait-field check over a list of documents. -/
def docsWaitOk : List Document → Bool
  | [] => true
  | d :: ds => docWaitOk d && docsWaitOk ds

end

/-- A JSON string literal. -/
def jstr (s : String) : String := "\"" ++ s ++ "\""

/-- A JSON object out of already-serialized member strings. -/
def jobj (members : List String) : String :=
  "\x7b" ++ String.intercalate ", " members ++ "\x7d"

/-- A JSON array out of already-serialized item strings. -/
def jarr (items : List String) : String :=
  "[" ++ String.intercalate ", " items ++ "]"

/-- An optional string member. -/
def optStrMember (k : String) : Option String → List String
  | none => []
  | some v => [jstr k ++ ": " ++ jstr v]

/-- An optional numeric member. -/
def optNatMember (k : String) : Option Nat → List String
  | none => []
  | some v => [jstr k ++ ": " ++ toString v]

/-- An optional boolean member. -/
def optBoolMember (k : String) : Option Bool → List String
  | none => []
  | some b => [jstr k ++ ": " ++ (if b then "true" else "false")]

/-- An array member, emitted only when nonempty. -/
def listMember (k : String) (items : List String) : List String :=
  match items with
  | [] => []
  | _ => [jstr k ++ ": " ++ jarr items]

/-- Serialization of one retry policy entry. -/
def serializeRetrier (r : Retrier) : String :=
  jobj [jstr "ErrorEquals" ++ ": " ++ jarr (r.errors.map jstr),
        jstr "IntervalSeconds" ++ ": " ++ toString r.intervalSeconds,
        jstr "BackoffRate" ++ ": " ++ toString r.backoffRate,
        jstr "MaxAttempts" ++ ": " ++ toString r.maxAttempts]

/-- Serialization of one catch handler. -/
def serializeCatcher (c : Catcher) : String :=
  jobj [jstr "ErrorEquals" ++ ": " ++ jarr (c.errors.map jstr),
        jstr "Next" ++ ": " ++ jstr c.nextName]

/-- Serialization of one Choice branch. -/
def serializeChoiceBranch (b : ChoiceBranch) : String :=
  jobj [b.condition, jstr "Next" ++ ": " ++ jstr b.nextName]

mutual

/-- Modelled from the spec: serialization of one state fragment into its
JSON text. -/
def serializeFrag : Fragment → String
  | .mk ty res nxt e rts cs chs dflt sec ts sp tp brs it err cause =>
    jobj ([jstr "Type" ++ ": " ++ jstr ty]
      ++ optStrMember "Resource" res
      ++ optStrMember "Next" nxt
      ++ optBoolMember "End" e
      ++ listMember "Retry" (rts.map serializeRetrier)
      ++ listMember "Catch" (cs.map serializeCatcher)
      ++ listMember "Choices" (chs.map serializeChoiceBranch)
      ++ optStrMember "Default" dflt
      ++ optNatMember "Seconds" sec
      ++ optStrMember "Timestamp" ts
      ++ optStrMember "SecondsPath" sp
      ++ optStrMember "TimestampPath" tp
      ++ listMember "Branches" (serializeDocs brs)
      ++ (match it with
          | none => []
          | some d => [jstr "Iterator" ++ ": " ++ serializeDoc d])
      ++ optStrMember "Error" err
      ++ optStrMember "Cause" cause)

/-- Serialization of the named fragments of one States mapping. -/
def serializeNamedFrags : List (String × Fragment) → List String
  | [] => []
  | (nm, fr) :: rest => (jstr nm ++ ": " ++ serializeFrag fr) :: serializeNamedFrags rest

/-- Modelled from the spec: serialization of a whole document into its JSON
text: StartAt, States, optional TimeoutSeconds. -/
def serializeDoc : Document → String
  | .mk sa sts t =>
    jobj ([jstr "StartAt" ++ ": " ++ jstr sa,
           jstr "States" ++ ": " ++ jobj (serializeNamedFrags sts)]
      ++ optNatMember "TimeoutSeconds" t)

/-- Serialization of a list of nested documents. -/
def serializeDocs : List Document → List String
  | [] => []
  | d :: ds => serializeDoc d :: serializeDocs ds

end

/-- Serialization of one permission statement. -/
def serializeStatement (s : PolicyStatement) : String :=
  jobj [jstr "Effect" ++ ": " ++ jstr s.effect,
        jstr "Action" ++ ": " ++ jarr (s.actions.map jstr),
        jstr "Resource" ++ ": " ++ jarr (s.resources.map jstr)]

/-- The full byte output of a compilation: the serialized document and the
serialized permission statements (the strings the caller of
state-machine.ts may cache or hash). -/
def compiledBytes (g : StateGraph) : Except CompileError (String × String) :=
  (compile g).map (fun o =>
    (serializeDoc o.doc, jarr (o.statements.map serializeStatement)))

/-- An IAM role as visible to state-machine.ts: the service principal it is
assumed by, the policy statements attached to it, and its ARN. -/
structure Role where
  assumedBy : String
  statements : List PolicyStatement
  roleArn : String
deriving Repr, DecidableEq

/-- The mutable state of a StateMachine construct relevant to
asEventRuleTarget (state-machine.ts lines 43 to 101): the construct id, the
state machine ARN, and the lazily created CloudWatch-events role. -/
structure StateMachineModel where
  id : String
  stateMachineArn : String
  eventsRole : Option Role
deriving Repr, DecidableEq

/-- The record returned by asEventRuleTarget (events.EventRuleTargetProps). -/
structure EventRuleTargetProps where
  id : String
  arn : String
  roleArn : String
deriving Repr, DecidableEq

/-- The events role created on the first asEventRuleTarget call
(state-machine.ts lines 87 to 93): assumed by events.amazonaws.com, with a
single policy statement allowing states:StartExecution on the state machine
ARN. -/
def mkEventsRole (smId smArn : String) : Role :=
  { assumedBy := "events.amazonaws.com",
    statements := [{ effect := "Allow", actions := ["states:StartExecution"],
                     resources := [smArn] }],
    roleArn := smId ++ "/EventsRole" }

/-- Embedding of asEventRuleTarget (state-machine.ts lines 85 to 101): if
no events role exists yet, create it with its single statement; then return
the record of construct id, state machine ARN and the events role ARN,
together with the possibly updated construct state. -/
def asEventRuleTarget (sm : StateMachineModel) :
    StateMachineModel × EventRuleTargetProps :=
  let role := match sm.eventsRole with
    | some r => r
    | none => mkEventsRole sm.id sm.stateMachineArn
  ({ sm with eventsRole := some role },
   { id := sm.id, arn := sm.stateMachineArn, roleArn := role.roleArn })

/-- The state transition of one asEventRuleTarget call. -/
def smStep (sm : StateMachineModel) : StateMachineModel :=
  (asEventRuleTarget sm).1

/-- A permission statement used by the example graphs. -/
def stmtA : PolicyStatement :=
  { effect := "Allow", actions := ["lambda:InvokeFunction"], resources := ["arn:fn"] }

/-- Example state: a Task followed by TaskB. -/
def taskA : StateDef :=
  .task "TaskA" "SM/TaskA" "arn:fnA" [stmtA] [] [] (some "TaskB") false

/-- Example state: a Task followed by the Wait state. -/
def taskB : StateDef :=
  .task "TaskB" "SM/TaskB" "arn:fnB" [stmtA] [] [] (some "W") false

/-- Example state: a terminal Wait of five seconds. -/
def waitW : StateDef :=
  .wait "W" "SM/W" { seconds := some 5, timestamp := none,
                     secondsPath := none, timestampPath := none } none true

/-- Example graph that compiles: TaskA, TaskB, W, with a timeout. -/
def gOk : StateGraph := { start := taskA, others := [taskB, waitW], timeoutSeconds := some 300 }

/-- The compilation output of the example graph. -/
def gOkOut : CompileOutput :=
  ((compile gOk).toOption).getD { doc := .mk "" [] none, statements := [] }

/-- A second permission statement used by the ordering example. -/
def stmtB : PolicyStatement :=
  { effect := "Allow", actions := ["sns:Publish"], resources := ["arn:topic"] }

/-- Example state: first Task of the ordering example, contributing the
first statement. -/
def taskP : StateDef :=
  .task "T1" "SM/T1" "arn:fn1" [stmtA] [] [] (some "T2") false

/-- Example state: second Task of the ordering example, contributing the
second statement. -/
def taskQ : StateDef :=
  .task "T2" "SM/T2" "arn:fn2" [stmtB] [] [] (some "T3") false

/-- Example state: third Task of the ordering example, contributing the
first statement again. -/
def taskR : StateDef :=
  .task "T3" "SM/T3" "arn:fn3" [stmtA] [] [] none true

/-- Example graph whose Task states contribute statements in the traversal
order first, second, first. -/
def gOrder : StateGraph :=
  { start := taskP, others := [taskQ, taskR], timeoutSeconds := none }

/-- The compilation output of the ordering example graph. -/
def gOrderOut : CompileOutput :=
  ((compile gOrder).toOption).getD { doc := .mk "" [] none, statements := [] }

/-- Example graph with two distinct states both named X. -/
def gDup : StateGraph :=
  { start := .pass "X" "SM/First/X" none true,
    others := [.pass "X" "SM/Second/X" none true],
    timeoutSeconds := none }

/-- Example graph whose only state is a Wait with two duration specifiers. -/
def gBadWait : StateGraph :=
  { start := .wait "W" "SM/W" { seconds := some 5, timestamp := some "2020-01-01T00:00:00Z",
                                secondsPath := none, timestampPath := none } none true,
    others := [], timeoutSeconds := none }

/-- Example graph whose only state points at a name that does not exist. -/
def gDangling : StateGraph :=
  { start := .pass "P" "SM/P" (some "Nope") false, others := [], timeoutSeconds := none }

/-- If the duplicate scan reports nothing, the names of the scanned entries
are distinct, and none of them repeats a registered name. -/
theorem findDupGo_none (seen l : List (String × String))
    (h : findDupGo seen l = none) :
    (l.map Prod.fst).Nodup ∧ ∀ x ∈ seen.map Prod.fst, x ∉ l.map Prod.fst := by
  induction l generalizing seen with
  | nil => simp
  | cons hd tl ih =>
    obtain ⟨n, p⟩ := hd
    cases hfind : seen.find? (fun e => e.1 = n) with
    | some e0 =>
      rw [findDupGo, hfind] at h
      exact absurd h (by simp)
    | none =>
      rw [findDupGo, hfind] at h
      obtain ⟨h1, h2⟩ := ih ((n, p) :: seen) h
      have hn : n ∉ tl.map Prod.fst := h2 n (by simp)
      refine ⟨?_, ?_⟩
      · rw [List.map_cons, List.nodup_cons]
        exact ⟨hn, h1⟩
      intro x hx
      simp only [List.map_cons, List.mem_cons, not_or]
      constructor
      · rintro rfl
        obtain ⟨⟨a, b⟩, hab, rfl⟩ := List.mem_map.mp hx
        have := List.find?_eq_none.mp hfind _ hab
        simp at this
      · exact h2 x (by simp [hx])

/-- If the names of the scanned entries are distinct and avoid every
registered name, the duplicate scan reports nothing. -/
theorem findDupGo_none_of_nodup (seen l : List (String × String))
    (h1 : (l.map Prod.fst).Nodup)
    (h2 : ∀ x ∈ l.map Prod.fst, x ∉ seen.map Prod.fst) :
    findDupGo seen l = none := by
  induction l generalizing seen with
  | nil => rfl
  | cons hd tl ih =>
    obtain ⟨n, p⟩ := hd
    have hfind : seen.find? (fun e => e.1 = n) = none := by
      rw [List.find?_eq_none]
      intro e he
      have := h2 n (by simp)
      simp only [List.mem_map, not_exists, not_and] at this
      simpa using fun hc => this e he (by simp [hc])
    rw [findDupGo, hfind]
    apply ih
    · exact (List.nodup_cons.mp (by simpa using h1)).2
    · intro x hx
      simp only [List.map_cons, List.mem_cons, not_or]
      constructor
      · rintro rfl
        exact (List.nodup_cons.mp (by simpa using h1)).1 hx
      · exact h2 x (by simp [hx])

/-- When the duplicate scan reports (n, p1, p2), the entry (n, p1) was
already registered or occurs in the scanned list, and (n, p2) occurs in the
scanned list. -/
theorem findDupGo_some (seen l : List (String × String)) (n p1 p2 : String)
    (h : findDupGo seen l = some (n, p1, p2)) :
    ((n, p1) ∈ seen ∨ (n, p1) ∈ l) ∧ (n, p2) ∈ l := by
  induction l generalizing seen with
  | nil => simp [findDupGo] at h
  | cons hd tl ih =>
    obtain ⟨m, q⟩ := hd
    cases hfind : seen.find? (fun e => e.1 = m) with
    | some e0 =>
      rw [findDupGo, hfind] at h
      have he0 : e0 ∈ seen := List.mem_of_find?_eq_some hfind
      have hp : e0.1 = m := by simpa using List.find?_some hfind
      have hinj := Option.some.inj h
      have hm : m = n := congrArg (fun x => x.1) hinj
      have hq : q = p2 := congrArg (fun x => x.2.2) hinj
      have hp1 : e0.2 = p1 := congrArg (fun x => x.2.1) hinj
      subst hm
      subst hq
      subst hp1
      refine ⟨Or.inl ?_, by simp⟩
      have hsplit : e0 = (m, e0.2) := by
        obtain ⟨a, b⟩ := e0
        simp only at hp
        simp [hp]
      rwa [← hsplit]
    | none =>
      rw [findDupGo, hfind] at h
      obtain ⟨hl, hr⟩ := ih ((m, q) :: seen) h
      refine ⟨?_, by simp [hr]⟩
      rcases hl with hs | hs
      · rcases List.mem_cons.mp hs with heq | hs2
        · exact Or.inr (by simp [heq])
        · exact Or.inl hs2
      · exact Or.inr (by simp [hs])

/-- C1: a graph whose flattened namespace (including names inside nested
Parallel branches and Map iterators) contains two distinct state entries
with the same display name fails compilation with DuplicateStateName, the
error carrying the construction paths of two colliding entries of the
namespace, and no document is produced; connectivity between the two states
plays no role, since the scan runs over all namespace entries. -/
theorem compile_duplicate_name (g : StateGraph)
    (h : ¬ (flatNames g.states).Nodup) :
    ∃ n p1 p2, compile g = .error (.duplicateStateName n p1 p2) ∧
      (n, p1) ∈ flatEntriesList g.states ∧ (n, p2) ∈ flatEntriesList g.states := by
  cases hfd : findDup (flatEntriesList g.states) with
  | none =>
    exact absurd (findDupGo_none [] _ hfd).1 h
  | some trip =>
    obtain ⟨n, p1, p2⟩ := trip
    have hb := findDupGo_some [] _ n p1 p2 hfd
    refine ⟨n, p1, p2, ?_, ?_, hb.2⟩
    · simp only [compile, findDup] at *
      rw [hfd]
    · rcases hb.1 with hs | hs
      · simp at hs
      · exact hs

/-- Witness for C1: the example graph with two states named X is rejected
with a DuplicateStateName error carrying paths from the namespace. -/
theorem compile_duplicate_name_witness :
    ¬ (flatNames gDup.states).Nodup ∧
      ∃ n p1 p2, compile gDup = .error (.duplicateStateName n p1 p2) ∧
        (n, p1) ∈ flatEntriesList gDup.states ∧ (n, p2) ∈ flatEntriesList gDup.states :=
  ⟨by decide, compile_duplicate_name gDup (by decide)⟩

/-- Inversion of a successful compilation: every validation pass reported
nothing and the output is the rendered document together with the merged
statements. -/
theorem compile_ok_inv (g : StateGraph) (out : CompileOutput)
    (h : compile g = .ok out) :
    findDup (flatEntriesList g.states) = none ∧
    findBadWaitList g.states = none ∧
    findUnresolvedList (levelKeys g.start g.others) g.states = none ∧
    out = { doc := .mk g.start.name (renderList g.states) g.timeoutSeconds,
            statements := mergeStatements (statementsList g.states) } := by
  simp only [compile] at h
  split at h
  next n p1 p2 heq => exact absurd h (by simp)
  next heq1 =>
    split at h
    next n heq => exact absurd h (by simp)
    next heq2 =>
      split at h
      next t heq => exact absurd h (by simp)
      next heq3 =>
        exact ⟨heq1, heq2, heq3, (Except.ok.inj h).symm⟩

/-- The keys of a rendered level are the names of its states. -/
theorem renderList_names : ∀ l : List StateDef,
    (renderList l).map Prod.fst = l.map StateDef.name
  | [] => rfl
  | s :: rest => by
    simp [renderList, renderList_names rest]

/-- Every state contributes its own (name, path) entry at the head of its
flattened entries. -/
theorem flatEntriesState_head (s : StateDef) :
    ∃ tail, flatEntriesState s = (s.name, s.path) :: tail := by
  cases s <;> exact ⟨_, rfl⟩

/-- The names of one level form a sublist of the flattened names. -/
theorem names_sublist_flatNames : ∀ l : List StateDef,
    List.Sublist (l.map StateDef.name) (flatNames l)
  | [] => by simp [flatNames, flatEntriesList]
  | s :: rest => by
    obtain ⟨tail, htail⟩ := flatEntriesState_head s
    have ih := names_sublist_flatNames rest
    simp only [flatNames, flatEntriesList, List.map_cons, List.map_append, htail,
      List.cons_append]
    refine List.Sublist.cons₂ _ ?_
    exact ih.trans (List.sublist_append_right _ _)

/-- C9: for every graph on which compilation succeeds, the TimeoutSeconds
field of the document is exactly the timeout configured on the graph:
present if and only if one was configured, and equal to the configured
value when present. -/
theorem compile_timeout (g : StateGraph) (out : CompileOutput)
    (h : compile g = .ok out) :
    out.doc.timeoutSeconds = g.timeoutSeconds := by
  obtain ⟨-, -, -, rfl⟩ := compile_ok_inv g out h
  rfl

/-- Witness for C9: the example graph compiles and its document carries the
configured timeout of 300 seconds. -/
theorem compile_timeout_witness :
    compile gOk = .ok gOkOut ∧ gOkOut.doc.timeoutSeconds = gOk.timeoutSeconds ∧
      gOk.timeoutSeconds = some 300 :=
  ⟨rfl, compile_timeout gOk gOkOut rfl, rfl⟩

/-- C3: compilation is a pure function of the graph; compiling the same
unmodified graph twice yields byte-identical output, the same serialized
document and the same serialized permission-statement list. -/
theorem compile_deterministic (g : StateGraph) (b1 b2 : String × String)
    (h1 : compiledBytes g = .ok b1) (h2 : compiledBytes g = .ok b2) : b1 = b2 := by
  rw [h1] at h2
  exact Except.ok.inj h2

/-- The bytes produced for the example graph. -/
def gOkBytes : String × String := ((compiledBytes gOk).toOption).getD ("", "")

/-- Witness for C3: two compilations of the example graph produce the same
bytes. -/
theorem compile_deterministic_witness :
    compiledBytes gOk = .ok gOkBytes ∧ gOkBytes = gOkBytes :=
  ⟨rfl, compile_deterministic gOk gOkBytes gOkBytes rfl rfl⟩

/-- C8: compilation is all-or-nothing: it either fully succeeds and returns
the complete document for the whole graph together with the merged
statement list, or it fails with a structural error and returns nothing. -/
theorem compile_all_or_nothing (g : StateGraph) :
    (∃ out, compile g = .ok out ∧
       out.doc = .mk g.start.name (renderList g.states) g.timeoutSeconds ∧
       out.statements = mergeStatements (statementsList g.states)) ∨
    (∃ e, compile g = .error e) := by
  cases h : compile g with
  | ok out =>
    left
    obtain ⟨-, -, -, rfl⟩ := compile_ok_inv g out h
    exact ⟨_, rfl, rfl, rfl⟩
  | error e => exact Or.inr ⟨e, rfl⟩

/-- C7: for every graph on which compilation succeeds, StartAt equals the
name of the start state, it is a key of the States mapping, and exactly one
state name equals StartAt. -/
theorem compile_startAt (g : StateGraph) (out : CompileOutput)
    (h : compile g = .ok out) :
    out.doc.startAt = g.start.name ∧
    out.doc.startAt ∈ out.doc.states.map Prod.fst ∧
    (out.doc.states.map Prod.fst).count out.doc.startAt = 1 := by
  obtain ⟨hdup, -, -, rfl⟩ := compile_ok_inv g out h
  have hnames : (renderList g.states).map Prod.fst = g.states.map StateDef.name :=
    renderList_names _
  have hnodup : (g.states.map StateDef.name).Nodup :=
    ((findDupGo_none [] _ hdup).1).sublist (names_sublist_flatNames g.states)
  have hmem : g.start.name ∈ g.states.map StateDef.name := by
    simp [StateGraph.states]
  refine ⟨rfl, ?_, ?_⟩
  · show g.start.name ∈ (renderList g.states).map Prod.fst
    rw [hnames]
    exact hmem
  · show ((renderList g.states).map Prod.fst).count g.start.name = 1
    rw [hnames]
    exact List.count_eq_one_of_mem hnodup hmem

/-- Witness for C7: the example graph compiles, StartAt is TaskA, TaskA is
a key of States, and exactly one state is named TaskA. -/
theorem compile_startAt_witness :
    compile gOk = .ok gOkOut ∧
      (gOkOut.doc.startAt = gOk.start.name ∧
       gOkOut.doc.startAt ∈ gOkOut.doc.states.map Prod.fst ∧
       (gOkOut.doc.states.map Prod.fst).count gOkOut.doc.startAt = 1) :=
  ⟨rfl, compile_startAt gOk gOkOut rfl⟩

/-- Membership in the merged statement list is membership in the
accumulator or in the input list. -/
theorem mergeInto_mem (l : List PolicyStatement) (acc : List PolicyStatement)
    (x : PolicyStatement) : x ∈ mergeInto acc l ↔ x ∈ acc ∨ x ∈ l := by
  induction l generalizing acc with
  | nil => simp [mergeInto]
  | cons s rest ih =>
    by_cases hs : s ∈ acc
    · rw [mergeInto, if_pos hs, ih]
      constructor
      · rintro (h | h)
        · exact Or.inl h
        · exact Or.inr (List.mem_cons_of_mem _ h)
      · rintro (h | h)
        · exact Or.inl h
        · rcases List.mem_cons.mp h with rfl | h
          · exact Or.inl hs
          · exact Or.inr h
    · rw [mergeInto, if_neg hs, ih]
      simp only [List.mem_append, List.mem_singleton, List.mem_cons]
      tauto

/-- Merging preserves distinctness of the accumulator. -/
theorem mergeInto_nodup (l : List PolicyStatement) (acc : List PolicyStatement)
    (h : acc.Nodup) : (mergeInto acc l).Nodup := by
  induction l generalizing acc with
  | nil => simpa [mergeInto]
  | cons s rest ih =>
    by_cases hs : s ∈ acc
    · rw [mergeInto, if_pos hs]
      exact ih _ h
    · rw [mergeInto, if_neg hs]
      refine ih _ ?_
      simp [List.nodup_append, h, hs]

/-- Merging appends to the accumulator a sublist of the input, so the new
statements appear in first-seen traversal order. -/
theorem mergeInto_append (l : List PolicyStatement) (acc : List PolicyStatement) :
    ∃ nw, mergeInto acc l = acc ++ nw ∧ List.Sublist nw l := by
  induction l generalizing acc with
  | nil => exact ⟨[], by simp [mergeInto], List.nil_sublist _⟩
  | cons s rest ih =>
    by_cases hs : s ∈ acc
    · obtain ⟨nw, h1, h2⟩ := ih acc
      exact ⟨nw, by rw [mergeInto, if_pos hs]; exact h1, h2.cons _⟩
    · obtain ⟨nw, h1, h2⟩ := ih (acc ++ [s])
      refine ⟨s :: nw, ?_, List.Sublist.cons₂ _ h2⟩
      rw [mergeInto, if_neg hs, h1, List.append_assoc]
      rfl

/-- The accumulator merge equals the accumulator followed by the first-seen
merge of the input statements not already in the accumulator. -/
theorem mergeInto_dedupFirstSeen (l : List PolicyStatement) (acc : List PolicyStatement) :
    mergeInto acc l = acc ++ dedupFirstSeen (l.filter (fun t => t ∉ acc)) := by
  induction l generalizing acc with
  | nil => simp [mergeInto, dedupFirstSeen]
  | cons s rest ih =>
    by_cases hs : s ∈ acc
    · rw [mergeInto, if_pos hs, ih]
      have hf : (s :: rest).filter (fun t => t ∉ acc) = rest.filter (fun t => t ∉ acc) := by
        simp [List.filter_cons, hs]
      rw [hf]
    · rw [mergeInto, if_neg hs, ih]
      have hf : (s :: rest).filter (fun t => t ∉ acc)
          = s :: rest.filter (fun t => t ∉ acc) := by
        simp [List.filter_cons, hs]
      rw [hf]
      simp only [dedupFirstSeen]
      have hff : (rest.filter (fun t => t ∉ acc)).filter (fun t => t ≠ s)
          = rest.filter (fun t => t ∉ acc ++ [s]) := by
        rw [List.filter_filter]
        exact List.filter_congr (fun a _ => by simp [List.mem_append, not_or, Bool.and_comm])
      rw [hff, List.append_assoc]
      rfl

/-- C6: the statement list returned for a compiling graph is exactly the
first-seen-order merge, by exact statement equality, of the statements
contributed in traversal order by its resource-dependent Task states: each
distinct statement is kept once, at the position of its first occurrence,
and later duplicates contribute nothing; consequently the list is
duplicate-free, contains a statement exactly when some state of the graph
contributes it, and is a sublist of the traversal order. -/
theorem compile_statements (g : StateGraph) (out : CompileOutput)
    (h : compile g = .ok out) :
    out.statements = dedupFirstSeen (statementsList g.states) ∧
    out.statements.Nodup ∧
    (∀ s, s ∈ out.statements ↔ s ∈ statementsList g.states) ∧
    List.Sublist out.statements (statementsList g.states) := by
  obtain ⟨-, -, -, rfl⟩ := compile_ok_inv g out h
  refine ⟨?_, mergeInto_nodup _ _ (by simp), ?_, ?_⟩
  · show mergeInto [] (statementsList g.states) = _
    rw [mergeInto_dedupFirstSeen]
    have hf : (statementsList g.states).filter (fun t => t ∉ ([] : List PolicyStatement))
        = statementsList g.states :=
      List.filter_eq_self.mpr (fun a _ => by simp)
    rw [hf]
    rfl
  · intro s
    simpa using mergeInto_mem (statementsList g.states) [] s
  · obtain ⟨nw, h1, h2⟩ := mergeInto_append (statementsList g.states) []
    show List.Sublist (mergeInto [] (statementsList g.states)) _
    rw [h1]
    simpa using h2

/-- Witness for C6: a graph whose Task states contribute statements in the
traversal order A, B, A compiles with merged list exactly A then B: each
distinct statement at its first occurrence, in first-seen order (a
last-occurrence merge would give B then A instead); in particular the two
states sharing statement A contribute exactly one merged statement. -/
theorem compile_statements_witness :
    compile gOrder = .ok gOrderOut ∧
    statementsList gOrder.states = [stmtA, stmtB, stmtA] ∧
    gOrderOut.statements = [stmtA, stmtB] ∧
    (gOrderOut.statements = dedupFirstSeen (statementsList gOrder.states) ∧
     gOrderOut.statements.Nodup ∧
     (∀ s, s ∈ gOrderOut.statements ↔ s ∈ statementsList gOrder.states) ∧
     List.Sublist gOrderOut.statements (statementsList gOrder.states)) :=
  ⟨rfl, rfl, rfl, compile_statements gOrder gOrderOut rfl⟩

/-- Wiring a pool whose relevant states are all open succeeds and sets the
transition of exactly the open ends, leaving all other states unchanged. -/
theorem wireStates_ok (ends : List String) (t : String) (pool : List StateDef)
    (h : ∀ s ∈ pool, s.name ∈ ends → s.isOpen = true) :
    wireStates ends t pool =
      .ok (pool.map (fun s => if s.name ∈ ends then s.withTarget t else s)) := by
  induction pool with
  | nil => rfl
  | cons s rest ih =>
    have hrest := ih (fun u hu => h u (List.mem_cons_of_mem _ hu))
    by_cases hs : s.name ∈ ends
    · have hopen := h s (List.mem_cons_self _ _) hs
      rw [wireStates, if_pos hs]
      rw [setTarget, if_pos hopen, hrest]
      simp [hs]
    · rw [wireStates, if_neg hs, hrest]
      simp [hs]

/-- Wiring a pool holding an already-wired open end fails with a
DoubleWiring error. -/
theorem wireStates_fail (ends : List String) (t : String) (pool : List StateDef)
    (h : ∃ s ∈ pool, s.name ∈ ends ∧ s.isOpen = false) :
    ∃ nm, wireStates ends t pool = .error (.doubleWiring nm) := by
  induction pool with
  | nil => simp at h
  | cons s rest ih =>
    obtain ⟨u, hu, hends, hopen⟩ := h
    rcases List.mem_cons.mp hu with rfl | hurest
    · refine ⟨u.name, ?_⟩
      rw [wireStates, if_pos hends, setTarget, if_neg (by simp [hopen])]
    · by_cases hs : s.name ∈ ends
      · cases hst : setTarget t s with
        | error e =>
          refine ⟨s.name, ?_⟩
          rw [wireStates, if_pos hs, hst]
          rw [setTarget] at hst
          by_cases hso : s.isOpen
          · rw [if_pos hso] at hst
            cases hst
          · rw [if_neg hso] at hst
            cases hst
            rfl
        | ok s2 =>
          obtain ⟨nm, hw⟩ := ih ⟨u, hurest, hends, hopen⟩
          exact ⟨nm, by rw [wireStates, if_pos hs, hst, hw]⟩
      · obtain ⟨nm, hw⟩ := ih ⟨u, hurest, hends, hopen⟩
        exact ⟨nm, by rw [wireStates, if_neg hs, hw]⟩

/-- C4: the chain-linking operation next(chain, target): when every open
end of the chain is still open, it sets the outgoing transition (Next, or
the default transition of a Choice open end) of exactly the open ends to
the name of the target start state and yields the chain whose start is the
first chain start and whose open ends are exactly the target open ends;
when some open end already has Next or End set, it fails with DoubleWiring
instead of overwriting. -/
theorem nextOp_spec (pool : List StateDef) (c t : Chain) :
    ((∀ s ∈ pool, s.name ∈ c.openEnds → s.isOpen = true) →
      nextOp pool c t = .ok
        (pool.map (fun s => if s.name ∈ c.openEnds then s.withTarget t.startName else s),
         { startName := c.startName, openEnds := t.openEnds })) ∧
    ((∃ s ∈ pool, s.name ∈ c.openEnds ∧ s.isOpen = false) →
      ∃ nm, nextOp pool c t = .error (.doubleWiring nm)) := by
  constructor
  · intro h
    rw [nextOp, wireStates_ok _ _ _ h]
  · intro h
    obtain ⟨nm, hw⟩ := wireStates_fail _ t.startName _ h
    exact ⟨nm, by rw [nextOp, hw]⟩

/-- Example state: an open Pass state named A. -/
def openPass : StateDef := .pass "A" "SM/A" none false

/-- Example state: a Pass state named B already wired to A. -/
def wiredPass : StateDef := .pass "B" "SM/B" (some "A") false

/-- Witness for C4: wiring the open end A to a target start T succeeds and
sets Next of A to T, while wiring the already-wired end B fails with
DoubleWiring. -/
theorem nextOp_spec_witness :
    nextOp [openPass] { startName := "A", openEnds := ["A"] }
        { startName := "T", openEnds := ["T"] } =
      .ok ([.pass "A" "SM/A" (some "T") false],
           { startName := "A", openEnds := ["T"] }) ∧
    ∃ nm, nextOp [wiredPass] { startName := "B", openEnds := ["B"] }
        { startName := "T", openEnds := ["T"] } = .error (.doubleWiring nm) :=
  ⟨(nextOp_spec [openPass] { startName := "A", openEnds := ["A"] }
      { startName := "T", openEnds := ["T"] }).1 (by decide),
   (nextOp_spec [wiredPass] { startName := "B", openEnds := ["B"] }
      { startName := "T", openEnds := ["T"] }).2 (by decide)⟩

/-- C10: asEventRuleTarget creates the events role at most once: on a
machine without one, the first call stores the role assumed by
events.amazonaws.com holding the single statement allowing
states:StartExecution on this machine ARN; one call makes further calls
no-ops (the state is a fixed point, for any number of calls), every later
call returns the same record, and the record carries the construct id, the
machine ARN and the events role ARN. -/
theorem asEventRuleTarget_spec (sm : StateMachineModel) :
    (sm.eventsRole = none →
      (smStep sm).eventsRole = some (mkEventsRole sm.id sm.stateMachineArn) ∧
      (mkEventsRole sm.id sm.stateMachineArn).statements =
        [{ effect := "Allow", actions := ["states:StartExecution"],
           resources := [sm.stateMachineArn] }]) ∧
    smStep (smStep sm) = smStep sm ∧
    (∀ n, smStep^[n] (smStep sm) = smStep sm) ∧
    asEventRuleTarget (smStep sm) = (smStep sm, (asEventRuleTarget sm).2) ∧
    (asEventRuleTarget sm).2.id = sm.id ∧
    (asEventRuleTarget sm).2.arn = sm.stateMachineArn := by
  obtain ⟨i, a, r⟩ := sm
  have hstep : smStep (smStep ⟨i, a, r⟩) = smStep ⟨i, a, r⟩ := by
    cases r <;> simp [smStep, asEventRuleTarget]
  refine ⟨?_, hstep, ?_, ?_, ?_, ?_⟩
  · intro h
    cases h
    exact ⟨rfl, rfl⟩
  · intro n
    induction n with
    | zero => rfl
    | succ k ihk => rw [Function.iterate_succ_apply, hstep, ihk]
  · cases r <;> simp [smStep, asEventRuleTarget]
  · rfl
  · rfl

/-- Example machine state before any asEventRuleTarget call. -/
def sm0 : StateMachineModel :=
  { id := "MyStateMachine", stateMachineArn := "arn:states:sm/MyStateMachine",
    eventsRole := none }

/-- Witness for C10: on the fresh example machine the first call creates
the role with its single StartExecution statement, the state is a fixed
point afterwards, and the returned record carries id, ARN and role ARN. -/
theorem asEventRuleTarget_spec_witness :
    sm0.eventsRole = none ∧
      ((smStep sm0).eventsRole = some (mkEventsRole sm0.id sm0.stateMachineArn) ∧
       (mkEventsRole sm0.id sm0.stateMachineArn).statements =
         [{ effect := "Allow", actions := ["states:StartExecution"],
            resources := [sm0.stateMachineArn] }]) ∧
      smStep (smStep sm0) = smStep sm0 ∧
      (asEventRuleTarget sm0).2.id = sm0.id ∧
      (asEventRuleTarget sm0).2.arn = sm0.stateMachineArn :=
  ⟨rfl, (asEventRuleTarget_spec sm0).1 rfl, (asEventRuleTarget_spec sm0).2.1,
   (asEventRuleTarget_spec sm0).2.2.2.2.1, (asEventRuleTarget_spec sm0).2.2.2.2.2⟩

mutual

/-- A state whose bad-Wait scan reports nothing has no bad Wait anywhere in
its flattened set. -/
theorem findBadWaitState_none : ∀ s : StateDef, findBadWaitState s = none →
    ∀ u ∈ flatStatesState s, isBadWait u = false
  | .task n p r stm rts cs nxt e, _, u, hu => by
    simp only [flatStatesState, List.mem_singleton] at hu
    subst hu; rfl
  | .pass n p nxt e, _, u, hu => by
    simp only [flatStatesState, List.mem_singleton] at hu
    subst hu; rfl
  | .wait n p w nxt e, h, u, hu => by
    simp only [flatStatesState, List.mem_singleton] at hu
    subst hu
    simp only [findBadWaitState] at h
    by_cases hc : w.count ≠ 1
    · rw [if_pos hc] at h; cases h
    · simp [isBadWait, hc]
  | .choice n p brs dflt, _, u, hu => by
    simp only [flatStatesState, List.mem_singleton] at hu
    subst hu; rfl
  | .succeed n p, _, u, hu => by
    simp only [flatStatesState, List.mem_singleton] at hu
    subst hu; rfl
  | .fail n p err c, _, u, hu => by
    simp only [flatStatesState, List.mem_singleton] at hu
    subst hu; rfl
  | .parallel n p brs cs nxt e, h, u, hu => by
    simp only [flatStatesState, List.mem_cons] at hu
    rcases hu with rfl | hu
    · rfl
    · exact findBadWaitBranches_none brs (by simpa [findBadWaitState] using h) u hu
  | .mapState n p it cs nxt e, h, u, hu => by
    simp only [flatStatesState, List.mem_cons] at hu
    rcases hu with rfl | hu
    · rfl
    · exact findBadWaitBranch_none it (by simpa [findBadWaitState] using h) u hu

/-- A state list whose bad-Wait scan reports nothing has no bad Wait in its
flattened set. -/
theorem findBadWaitList_none : ∀ l : List StateDef, findBadWaitList l = none →
    ∀ u ∈ flatStatesList l, isBadWait u = false
  | [], _, u, hu => by simp [flatStatesList] at hu
  | s :: rest, h, u, hu => by
    cases hs : findBadWaitState s with
    | some nm =>
      simp only [findBadWaitList, hs] at h
      exact absurd h (by simp)
    | none =>
      simp only [findBadWaitList, hs] at h
      simp only [flatStatesList, List.mem_append] at hu
      rcases hu with hu | hu
      · exact findBadWaitState_none s hs u hu
      · exact findBadWaitList_none rest h u hu

/-- A sub-graph whose bad-Wait scan reports nothing has no bad Wait in its
flattened set. -/
theorem findBadWaitBranch_none : ∀ b : Branch, findBadWaitBranch b = none →
    ∀ u ∈ flatStatesBranch b, isBadWait u = false
  | .mk st os, h, u, hu => by
    cases hs : findBadWaitState st with
    | some nm =>
      simp only [findBadWaitBranch, hs] at h
      exact absurd h (by simp)
    | none =>
      simp only [findBadWaitBranch, hs] at h
      simp only [flatStatesBranch, List.mem_append] at hu
      rcases hu with hu | hu
      · exact findBadWaitState_none st hs u hu
      · exact findBadWaitList_none os h u hu

/-- A sub-graph list whose bad-Wait scan reports nothing has no bad Wait in
its flattened set. -/
theorem findBadWaitBranches_none : ∀ bs : List Branch, findBadWaitBranches bs = none →
    ∀ u ∈ flatStatesBranches bs, isBadWait u = false
  | [], _, u, hu => by simp [flatStatesBranches] at hu
  | b :: bs, h, u, hu => by
    cases hb : findBadWaitBranch b with
    | some nm =>
      simp only [findBadWaitBranches, hb] at h
      exact absurd h (by simp)
    | none =>
      simp only [findBadWaitBranches, hb] at h
      simp only [flatStatesBranches, List.mem_append] at hu
      rcases hu with hu | hu
      · exact findBadWaitBranch_none b hb u hu
      · exact findBadWaitBranches_none bs h u hu

end

mutual

/-- When the bad-Wait scan of one state reports a name, a bad Wait of that
name is in its flattened set. -/
theorem findBadWaitState_some : ∀ (s : StateDef) (nm : String),
    findBadWaitState s = some nm →
    ∃ u ∈ flatStatesState s, isBadWait u = true ∧ u.name = nm
  | .task n p r stm rts cs nxt e, nm, h => by simp [findBadWaitState] at h
  | .pass n p nxt e, nm, h => by simp [findBadWaitState] at h
  | .wait n p w nxt e, nm, h => by
    simp only [findBadWaitState] at h
    by_cases hc : w.count ≠ 1
    · rw [if_pos hc] at h
      cases h
      exact ⟨.wait n p w nxt e, by simp [flatStatesState], by simp [isBadWait, hc], rfl⟩
    · rw [if_neg hc] at h; cases h
  | .choice n p brs dflt, nm, h => by simp [findBadWaitState] at h
  | .succeed n p, nm, h => by simp [findBadWaitState] at h
  | .fail n p err c, nm, h => by simp [findBadWaitState] at h
  | .parallel n p brs cs nxt e, nm, h => by
    obtain ⟨u, hu, h1, h2⟩ :=
      findBadWaitBranches_some brs nm (by simpa [findBadWaitState] using h)
    exact ⟨u, by simp [flatStatesState, hu], h1, h2⟩
  | .mapState n p it cs nxt e, nm, h => by
    obtain ⟨u, hu, h1, h2⟩ :=
      findBadWaitBranch_some it nm (by simpa [findBadWaitState] using h)
    exact ⟨u, by simp [flatStatesState, hu], h1, h2⟩

/-- When the bad-Wait scan of a state list reports a name, a bad Wait of
that name is in its flattened set. -/
theorem findBadWaitList_some : ∀ (l : List StateDef) (nm : String),
    findBadWaitList l = some nm →
    ∃ u ∈ flatStatesList l, isBadWait u = true ∧ u.name = nm
  | [], nm, h => by simp [findBadWaitList] at h
  | s :: rest, nm, h => by
    cases hs : findBadWaitState s with
    | some nm2 =>
      simp only [findBadWaitList, hs] at h
      obtain rfl := Option.some.inj h
      obtain ⟨u, hu, h1, h2⟩ := findBadWaitState_some s _ hs
      exact ⟨u, by simp [flatStatesList, hu], h1, h2⟩
    | none =>
      simp only [findBadWaitList, hs] at h
      obtain ⟨u, hu, h1, h2⟩ := findBadWaitList_some rest nm h
      exact ⟨u, by simp [flatStatesList, hu], h1, h2⟩

/-- When the bad-Wait scan of a sub-graph reports a name, a bad Wait of
that name is in its flattened set. -/
theorem findBadWaitBranch_some : ∀ (b : Branch) (nm : String),
    findBadWaitBranch b = some nm →
    ∃ u ∈ flatStatesBranch b, isBadWait u = true ∧ u.name = nm
  | .mk st os, nm, h => by
    cases hs : findBadWaitState st with
    | some nm2 =>
      simp only [findBadWaitBranch, hs] at h
      obtain rfl := Option.some.inj h
      obtain ⟨u, hu, h1, h2⟩ := findBadWaitState_some st _ hs
      exact ⟨u, by simp [flatStatesBranch, hu], h1, h2⟩
    | none =>
      simp only [findBadWaitBranch, hs] at h
      obtain ⟨u, hu, h1, h2⟩ := findBadWaitList_some os nm h
      exact ⟨u, by simp [flatStatesBranch, hu], h1, h2⟩

/-- When the bad-Wait scan of a sub-graph list reports a name, a bad Wait
of that name is in its flattened set. -/
theorem findBadWaitBranches_some : ∀ (bs : List Branch) (nm : String),
    findBadWaitBranches bs = some nm →
    ∃ u ∈ flatStatesBranches bs, isBadWait u = true ∧ u.name = nm
  | [], nm, h => by simp [findBadWaitBranches] at h
  | b :: bs, nm, h => by
    cases hb : findBadWaitBranch b with
    | some nm2 =>
      simp only [findBadWaitBranches, hb] at h
      obtain rfl := Option.some.inj h
      obtain ⟨u, hu, h1, h2⟩ := findBadWaitBranch_some b _ hb
      exact ⟨u, by simp [flatStatesBranches, hu], h1, h2⟩
    | none =>
      simp only [findBadWaitBranches, hb] at h
      obtain ⟨u, hu, h1, h2⟩ := findBadWaitBranches_some bs nm h
      exact ⟨u, by simp [flatStatesBranches, hu], h1, h2⟩

end

mutual

/-- Rendering a state whose bad-Wait scan reports nothing yields a fragment
whose Wait fields are well formed throughout. -/
theorem fragWaitOk_render : ∀ s : StateDef, findBadWaitState s = none →
    fragWaitOk (renderState s) = true
  | .task n p r stm rts cs nxt e, _ => by
    simp [renderState, fragWaitOk, docsWaitOk]
  | .pass n p nxt e, _ => by
    simp [renderState, fragWaitOk, docsWaitOk]
  | .wait n p w nxt e, h => by
    simp only [findBadWaitState] at h
    by_cases hc : w.count ≠ 1
    · rw [if_pos hc] at h; cases h
    · push_neg at hc
      simp [renderState, fragWaitOk, docsWaitOk, hc]
  | .choice n p brs dflt, _ => by
    simp [renderState, fragWaitOk, docsWaitOk]
  | .succeed n p, _ => by
    simp [renderState, fragWaitOk, docsWaitOk]
  | .fail n p err c, _ => by
    simp [renderState, fragWaitOk, docsWaitOk]
  | .parallel n p brs cs nxt e, h => by
    have hb := docsWaitOk_renderBranches brs (by simpa [findBadWaitState] using h)
    simp [renderState, fragWaitOk, docsWaitOk, hb]
  | .mapState n p it cs nxt e, h => by
    have hb := docWaitOk_renderBranch it (by simpa [findBadWaitState] using h)
    simp [renderState, fragWaitOk, docsWaitOk, hb]

/-- Rendering a state list whose bad-Wait scan reports nothing yields
well-formed Wait fields throughout. -/
theorem fragsWaitOk_render : ∀ l : List StateDef, findBadWaitList l = none →
    fragsWaitOk (renderList l) = true
  | [], _ => by simp [renderList, fragsWaitOk]
  | s :: rest, h => by
    cases hs : findBadWaitState s with
    | some nm =>
      simp only [findBadWaitList, hs] at h
      exact absurd h (by simp)
    | none =>
      simp only [findBadWaitList, hs] at h
      simp [renderList, fragsWaitOk, fragWaitOk_render s hs, fragsWaitOk_render rest h]

/-- Rendering a sub-graph whose bad-Wait scan reports nothing yields a
document with well-formed Wait fields throughout. -/
theorem docWaitOk_renderBranch : ∀ b : Branch, findBadWaitBranch b = none →
    docWaitOk (renderBranch b) = true
  | .mk st os, h => by
    cases hs : findBadWaitState st with
    | some nm =>
      simp only [findBadWaitBranch, hs] at h
      exact absurd h (by simp)
    | none =>
      simp only [findBadWaitBranch, hs] at h
      simp [renderBranch, docWaitOk, fragsWaitOk, fragWaitOk_render st hs,
        fragsWaitOk_render os h]

/-- Rendering a sub-graph list whose bad-Wait scan reports nothing yields
documents with well-formed Wait fields throughout. -/
theorem docsWaitOk_renderBranches : ∀ bs : List Branch, findBadWaitBranches bs = none →
    docsWaitOk (renderBranches bs) = true
  | [], _ => by simp [renderBranches, docsWaitOk]
  | b :: bs, h => by
    cases hb : findBadWaitBranch b with
    | some nm =>
      simp only [findBadWaitBranches, hb] at h
      exact absurd h (by simp)
    | none =>
      simp only [findBadWaitBranches, hb] at h
      simp [renderBranches, docsWaitOk, docWaitOk_renderBranch b hb,
        docsWaitOk_renderBranches bs h]

end

/-- C5: duplicate-free graphs holding a Wait state with zero or more than
one duration specifiers fail compilation with InvalidWaitSpecification
naming such a Wait state, before any document is produced; and whenever
compilation succeeds, every Wait fragment of the document carries exactly
one of the four duration fields. -/
theorem compile_wait_spec (g : StateGraph) :
    ((flatNames g.states).Nodup →
      (∃ u ∈ flatStatesList g.states, isBadWait u = true) →
      ∃ nm, compile g = .error (.invalidWaitSpecification nm) ∧
        ∃ u ∈ flatStatesList g.states, isBadWait u = true ∧ u.name = nm) ∧
    (∀ out, compile g = .ok out → docWaitOk out.doc = true) ∧
    ((∀ u ∈ flatStatesList g.states, isBadWait u = false) →
      findDup (flatEntriesList g.states) = none →
      findUnresolvedList (levelKeys g.start g.others) g.states = none →
      ∃ out, compile g = .ok out ∧ docWaitOk out.doc = true) := by
  refine ⟨?_, ?_, ?_⟩
  · intro hnd hbad
    have hdup : findDup (flatEntriesList g.states) = none :=
      findDupGo_none_of_nodup [] _ hnd (by simp)
    cases hbw : findBadWaitList g.states with
    | none =>
      obtain ⟨u, hu, hbadu⟩ := hbad
      have hfalse := findBadWaitList_none _ hbw u hu
      rw [hbadu] at hfalse
      cases hfalse
    | some nm =>
      refine ⟨nm, ?_, findBadWaitList_some _ _ hbw⟩
      simp only [compile, findDup] at *
      rw [hdup, hbw]
  · intro out h
    obtain ⟨-, hbw, -, rfl⟩ := compile_ok_inv g out h
    show docWaitOk (.mk g.start.name (renderList g.states) g.timeoutSeconds) = true
    simp only [docWaitOk]
    exact fragsWaitOk_render g.states hbw
  · intro hgood h1 h3
    cases hbw : findBadWaitList g.states with
    | some nm =>
      obtain ⟨u, hu, hbad, -⟩ := findBadWaitList_some _ _ hbw
      have := hgood u hu
      rw [hbad] at this
      cases this
    | none =>
      refine ⟨{ doc := .mk g.start.name (renderList g.states) g.timeoutSeconds,
                statements := mergeStatements (statementsList g.states) }, ?_, ?_⟩
      · simp only [compile, findDup] at *
        rw [h1, hbw, h3]
      · simp only [docWaitOk]
        exact fragsWaitOk_render g.states hbw

/-- Witness for C5: the graph whose Wait sets both Seconds and Timestamp is
rejected with InvalidWaitSpecification, while the example graph with a
single-specifier Wait compiles and its document has exactly one duration
field on every Wait fragment. -/
theorem compile_wait_spec_witness :
    ((flatNames gBadWait.states).Nodup ∧
     (∃ u ∈ flatStatesList gBadWait.states, isBadWait u = true) ∧
     ∃ nm, compile gBadWait = .error (.invalidWaitSpecification nm) ∧
       ∃ u ∈ flatStatesList gBadWait.states, isBadWait u = true ∧ u.name = nm) ∧
    (compile gOk = .ok gOkOut ∧ docWaitOk gOkOut.doc = true) ∧
    (∃ out, compile gOk = .ok out ∧ docWaitOk out.doc = true) :=
  ⟨⟨by decide, by decide,
    (compile_wait_spec gBadWait).1 (by decide) (by decide)⟩,
   ⟨rfl, (compile_wait_spec gOk).2.1 gOkOut rfl⟩,
   (compile_wait_spec gOk).2.2 (by decide) rfl rfl⟩

/-- When the dangling scan reports nothing, every target of the list is
among the keys. -/
theorem findDangling_none (keys : List String) : ∀ ts : List String,
    findDangling keys ts = none → ts.all (fun t => decide (t ∈ keys)) = true
  | [], _ => rfl
  | t :: ts, h => by
    by_cases ht : t ∈ keys
    · rw [findDangling, if_pos ht] at h
      simp [List.all_cons, findDangling_none keys ts h, ht]
    · rw [findDangling, if_neg ht] at h
      cases h

mutual

/-- Rendering a state whose unresolved-target scan against its level keys
reports nothing yields a fragment whose targets all resolve. -/
theorem fragResolved_render (keys : List String) : ∀ s : StateDef,
    findUnresolvedState keys s = none → fragResolved keys (renderState s) = true
  | .task n p r stm rts cs nxt e, h => by
    have h2 := findDangling_none keys _ (by simpa [findUnresolvedState] using h)
    simp only [stateTargets] at h2
    simpa [renderState, fragResolved, docsResolved] using h2
  | .pass n p nxt e, h => by
    have h2 := findDangling_none keys _ (by simpa [findUnresolvedState] using h)
    simp only [stateTargets] at h2
    simpa [renderState, fragResolved, docsResolved] using h2
  | .wait n p w nxt e, h => by
    have h2 := findDangling_none keys _ (by simpa [findUnresolvedState] using h)
    simp only [stateTargets] at h2
    simpa [renderState, fragResolved, docsResolved] using h2
  | .choice n p brs dflt, h => by
    have h2 := findDangling_none keys _ (by simpa [findUnresolvedState] using h)
    simp only [stateTargets] at h2
    simpa [renderState, fragResolved, docsResolved] using h2
  | .succeed n p, h => by
    simp [renderState, fragResolved, docsResolved]
  | .fail n p err c, h => by
    simp [renderState, fragResolved, docsResolved]
  | .parallel n p brs cs nxt e, h => by
    cases hd : findDangling keys (stateTargets (.parallel n p brs cs nxt e)) with
    | some t =>
      simp only [findUnresolvedState, hd] at h
      exact absurd h (by simp)
    | none =>
      simp only [findUnresolvedState, hd] at h
      have h2 := findDangling_none keys _ hd
      have hb := docsResolved_renderBranches brs h
      simp only [stateTargets] at h2
      simpa [renderState, fragResolved, docsResolved, hb] using h2
  | .mapState n p it cs nxt e, h => by
    cases hd : findDangling keys (stateTargets (.mapState n p it cs nxt e)) with
    | some t =>
      simp only [findUnresolvedState, hd] at h
      exact absurd h (by simp)
    | none =>
      simp only [findUnresolvedState, hd] at h
      have h2 := findDangling_none keys _ hd
      have hb := docResolved_renderBranch it h
      simp only [stateTargets] at h2
      simpa [renderState, fragResolved, docsResolved, hb] using h2

/-- Rendering a state list whose unresolved-target scan reports nothing
yields fragments whose targets all resolve. -/
theorem fragsResolved_render (keys : List String) : ∀ l : List StateDef,
    findUnresolvedList keys l = none → fragsResolved keys (renderList l) = true
  | [], _ => by simp [renderList, fragsResolved]
  | s :: rest, h => by
    cases hs : findUnresolvedState keys s with
    | some t =>
      simp only [findUnresolvedList, hs] at h
      exact absurd h (by simp)
    | none =>
      simp only [findUnresolvedList, hs] at h
      simp [renderList, fragsResolved, fragResolved_render keys s hs,
        fragsResolved_render keys rest h]

/-- Rendering a sub-graph whose unresolved-target scan reports nothing
yields a document in which every target resolves at its own level. -/
theorem docResolved_renderBranch : ∀ b : Branch, findUnresolvedBranch b = none →
    docResolved (renderBranch b) = true
  | .mk st os, h => by
    cases hs : findUnresolvedState (levelKeys st os) st with
    | some t =>
      simp only [findUnresolvedBranch, hs] at h
      exact absurd h (by simp)
    | none =>
      simp only [findUnresolvedBranch, hs] at h
      have h1 := fragResolved_render (levelKeys st os) st hs
      have h2 := fragsResolved_render (levelKeys st os) os h
      have hkeys : st.name :: (renderList os).map Prod.fst = levelKeys st os := by
        rw [renderList_names]
        rfl
      simp [renderBranch, docResolved, fragsResolved, hkeys, h1, h2]

/-- Rendering a sub-graph list whose unresolved-target scan reports nothing
yields documents in which every target resolves. -/
theorem docsResolved_renderBranches : ∀ bs : List Branch,
    findUnresolvedBranches bs = none → docsResolved (renderBranches bs) = true
  | [], _ => by simp [renderBranches, docsResolved]
  | b :: bs, h => by
    cases hb : findUnresolvedBranch b with
    | some t =>
      simp only [findUnresolvedBranches, hb] at h
      exact absurd h (by simp)
    | none =>
      simp only [findUnresolvedBranches, hb] at h
      simp [renderBranches, docsResolved, docResolved_renderBranch b hb,
        docsResolved_renderBranches bs h]

end

/-- C2: whenever compilation succeeds, every name appearing as a Next,
Default, Choice-branch target or Catch target anywhere in the compiled
document is a key of the States mapping of its own nesting level; and a
graph whose remaining defect is an unresolved target fails compilation with
UnresolvedTransition naming that target, before any output is produced. -/
theorem compile_resolved (g : StateGraph) :
    (∀ out, compile g = .ok out → docResolved out.doc = true) ∧
    (findDup (flatEntriesList g.states) = none →
     findBadWaitList g.states = none →
     ∀ tg, findUnresolvedList (levelKeys g.start g.others) g.states = some tg →
       compile g = .error (.unresolvedTransition tg)) := by
  constructor
  · intro out h
    obtain ⟨-, -, hres, rfl⟩ := compile_ok_inv g out h
    show docResolved (.mk g.start.name (renderList g.states) g.timeoutSeconds) = true
    have hkeys : (renderList g.states).map Prod.fst = levelKeys g.start g.others := by
      rw [renderList_names]
      rfl
    simp only [docResolved, hkeys]
    exact fragsResolved_render _ g.states hres
  · intro h1 h2 tg h3
    simp only [compile, h1, h2, h3]

/-- Witness for C2: the example graph compiles into a fully resolved
document, while the graph whose Pass state points at the absent name Nope
is rejected with UnresolvedTransition Nope. -/
theorem compile_resolved_witness :
    (compile gOk = .ok gOkOut ∧ docResolved gOkOut.doc = true) ∧
    compile gDangling = .error (.unresolvedTransition "Nope") :=
  ⟨⟨rfl, (compile_resolved gOk).1 gOkOut rfl⟩,
   (compile_resolved gDangling).2 rfl rfl "Nope" rfl⟩

end StepFn
